import Mathlib

/-
Verification development for the self-patcher routine (modify_self) of the
autobot repository, covering the two backup variants
autobot_backup_20250216162647.py and autobot_backup_20250216154611.py.

The embedding works over lists of characters: a Line is the character
sequence of one element of the list produced by Python readlines (so a line
normally ends with a newline character), and a File is the list of those
elements.  External collaborators (the py_compile subprocess, module reload,
hasattr on the reloaded instance, os.execv) are modelled by an oracle
environment; everything textual is modelled directly from the source.
-/

abbrev Line := List Char

abbrev PyFile := List Line

def chars (s : String) : Line := s.data

/-- Python default whitespace for str.strip / str.lstrip. -/
def pyWS (c : Char) : Bool :=
  c == ' ' || c == '\t' || c == '\n' || c == '\r' || c == '\x0b' || c == '\x0c'

/-- Python str.lstrip with no argument. -/
def pyLStrip (l : Line) : Line := l.dropWhile pyWS

/-- Python str.rstrip with no argument. -/
def pyRStrip (l : Line) : Line := (l.reverse.dropWhile pyWS).reverse

/-- Python str.strip with no argument. -/
def pyStrip (l : Line) : Line := pyRStrip (pyLStrip l)

/-- Python substring containment: pat in s. -/
def containsSub (s pat : Line) : Bool :=
  match s with
  | [] => pat.isEmpty
  | _ :: tl => pat.isPrefixOf s || containsSub tl pat

/-- Index of the first element satisfying p, as Python
next((i for i, x in enumerate(xs) if p x), None). -/
def findFirstIdx (p : Line → Bool) : PyFile → Option Nat
  | [] => none
  | l :: ls => if p l then some 0 else (findFirstIdx p ls).map (· + 1)

/-- Total indexing into a file; out of range gives the empty line. -/
def lineAt (f : PyFile) (i : Nat) : Line :=
  match f, i with
  | [], _ => []
  | l :: _, 0 => l
  | _ :: ls, i + 1 => lineAt ls i

/-- The loop pattern of both variants: walk the remaining lines keeping the
absolute index of the last line satisfying p, starting from acc. -/
def scanLastIdx (p : Line → Bool) : PyFile → Nat → Nat → Nat
  | [], _, acc => acc
  | l :: ls, base, acc => scanLastIdx p ls (base + 1) (if p l then base else acc)

/-- line.strip().startswith("def ") as used by both insertion scans. -/
def isDefStart (l : Line) : Bool := (chars "def ").isPrefixOf (pyStrip l)

/-- line.strip().startswith("class Autobot"), the anchor test. -/
def isClassAutobotLine (l : Line) : Bool :=
  (chars "class Autobot").isPrefixOf (pyStrip l)

/-- The duplicate pattern f-string: "def " + function_name + "(". -/
def defPat (functionName : Line) : Line :=
  chars "def " ++ functionName ++ chars "("

/-- Prepend a character to the first piece of a decomposition. -/
def consLine (c : Char) : PyFile → PyFile
  | [] => [[c]]
  | l :: ls => (c :: l) :: ls

/-- Python s.split with separator a single newline character. -/
def pySplitNl : Line → List Line
  | [] => [[]]
  | c :: cs => if c = '\n' then [] :: pySplitNl cs else consLine c (pySplitNl cs)

/-- Python newline.join. -/
def joinNl : List Line → Line
  | [] => []
  | [l] => l
  | l :: ls => l ++ '\n' :: joinNl ls

/-- Python readlines applied to raw file content: split after every newline
character, keeping the terminators. -/
def readLines : Line → PyFile
  | [] => []
  | c :: cs => if c = '\n' then ['\n'] :: readLines cs else consLine c (readLines cs)

/-- Python list.insert(i, x): insert before position i, clamping to append. -/
def insertPy (i : Nat) (x : Line) (f : PyFile) : PyFile :=
  f.take i ++ x :: f.drop i

/-- A line as produced by readlines on an interior line: it ends with a
newline character and contains no other newline character. -/
def wfLine (l : Line) : Bool :=
  l.getLast? == some '\n' && !(l.dropLast.any (· == '\n'))

/-- Number of leading whitespace characters. -/
def leadWs (l : Line) : Nat := (l.takeWhile pyWS).length

/-- Number of leading space characters (indentation width). -/
def leadSpaces (l : Line) : Nat := (l.takeWhile (· == ' ')).length

/-- The last function scan of both variants: starting from the class line,
every later line whose stripped text begins with "def " updates the index;
the initial value is the class index itself. -/
def lastFunctionIndex (f : PyFile) (classIndex : Nat) : Nat :=
  scanLastIdx isDefStart (f.drop (classIndex + 1)) (classIndex + 1) classIndex

/-- Per-line body formatting of variant 162647:
"    " + line.lstrip() for every line of new_code.strip().split newline. -/
def formatBody162647 (newCode : Line) : List Line :=
  (pySplitNl (pyStrip newCode)).map (fun line => chars "    " ++ pyLStrip line)

/-- Per-line body indentation of variant 154611:
"    " + line for every line of new_code.strip().split newline. -/
def indentBody154611 (newCode : Line) : List Line :=
  (pySplitNl (pyStrip newCode)).map (fun line => chars "    " ++ line)

/-- The single element inserted into the line list by variant 162647:
a leading newline, the joined formatted body, a trailing newline. -/
def insBlock162647 (newCode : Line) : Line :=
  chars "\n" ++ joinNl (formatBody162647 newCode) ++ chars "\n"

/-- The single element inserted into the line list by variant 154611. -/
def insBlock154611 (newCode : Line) : Line :=
  chars "\n" ++ joinNl (indentBody154611 newCode) ++ chars "\n"

/-- Result of one modify_self call, mirroring the returned message strings. -/
inductive PatchResult where
  | dupExists
  | anchorMissing
  | malformed
  | compileRollback
  | verifyRollback
  | exceptRollback
  | success
  deriving DecidableEq, Repr

def isFailure : PatchResult → Bool
  | .success => false
  | _ => true

/-- Final state observable after the call: the result, the byte content of
the target file on return, and the sequence of byte contents written to the
target during the call (the patched write, then possibly the restore copy). -/
structure Outcome where
  result : PatchResult
  file : Line
  writes : List Line
  deriving DecidableEq, Repr

/-- Oracle environment for the external steps of variant 162647. -/
structure Env162647 where
  /-- Combined output of run_command for python -m py_compile. -/
  compileOutput : Line
  /-- Whether import autobot / importlib.reload / Autobot() raises. -/
  reloadRaises : Bool
  /-- hasattr(test_bot, function_name) on the reloaded instance. -/
  hasattrResult : Bool
  /-- Whether os.execv raises instead of replacing the process image. -/
  execvRaises : Bool
  deriving Repr

/-- modify_self of autobot_backup_20250216162647.py, lines 104 to 169.
The backup made on entry has the pre-call content, so every restore yields
List.flatten f.  The git commit and push helpers only run commands through
run_command, which catches its own exceptions and returns strings, so they
neither raise nor touch the target file in this model.  On the success path
os.execv replaces the process image with a fresh interpreter; we record the
completed success path with the success result of source line 165, the file
left in its patched state. -/
def modify_self_162647 (f : PyFile) (newCode functionName : Line)
    (env : Env162647) : Outcome :=
  if f.any (fun line => containsSub line (defPat functionName)) then
    ⟨.dupExists, List.flatten f, []⟩
  else
    match findFirstIdx isClassAutobotLine f with
    | none => ⟨.anchorMissing, List.flatten f, []⟩
    | some classIndex =>
      if !(isDefStart ((pySplitNl (pyStrip newCode)).headD [])) then
        ⟨.malformed, List.flatten f, []⟩
      else
        if containsSub env.compileOutput (chars "SyntaxError") then
          ⟨.compileRollback, List.flatten f,
            [List.flatten (insertPy (lastFunctionIndex f classIndex + 1)
              (insBlock162647 newCode) f), List.flatten f]⟩
        else if env.reloadRaises then
          ⟨.exceptRollback, List.flatten f,
            [List.flatten (insertPy (lastFunctionIndex f classIndex + 1)
              (insBlock162647 newCode) f), List.flatten f]⟩
        else if !env.hasattrResult then
          ⟨.verifyRollback, List.flatten f,
            [List.flatten (insertPy (lastFunctionIndex f classIndex + 1)
              (insBlock162647 newCode) f), List.flatten f]⟩
        else if env.execvRaises then
          ⟨.exceptRollback, List.flatten f,
            [List.flatten (insertPy (lastFunctionIndex f classIndex + 1)
              (insBlock162647 newCode) f), List.flatten f]⟩
        else
          ⟨.success,
            List.flatten (insertPy (lastFunctionIndex f classIndex + 1)
              (insBlock162647 newCode) f),
            [List.flatten (insertPy (lastFunctionIndex f classIndex + 1)
              (insBlock162647 newCode) f)]⟩

/-- modify_self of autobot_backup_20250216154611.py, lines 104 to 162.
After the duplicate and anchor checks it always writes the patched file
(there is no malformed-body check and no py_compile check), runs the git
helpers, and then evaluates importlib.reload(autobot): the global name
autobot is never bound in that module, so the Python name lookup raises
NameError, the broad except handler copies the backup over the target, and
the generic rollback message of source line 162 is returned.  The verify and
success code of lines 151 to 158 is unreachable. -/
def modify_self_154611 (f : PyFile) (newCode functionName : Line) : Outcome :=
  if f.any (fun line => containsSub line (defPat functionName)) then
    ⟨.dupExists, List.flatten f, []⟩
  else
    match findFirstIdx isClassAutobotLine f with
    | none => ⟨.anchorMissing, List.flatten f, []⟩
    | some classIndex =>
      ⟨.exceptRollback, List.flatten f,
        [List.flatten (insertPy (lastFunctionIndex f classIndex + 1)
          (insBlock154611 newCode) f), List.flatten f]⟩

/-- Modelled from the spec: a line that contains a definition of the named
function, in the Python sense — after stripping, the keyword def, at least
one whitespace character, the function name, optional whitespace, and an
opening parenthesis.  This is the reading of the spec phrases "a line already
contains a definition of the requested function name" and "the function name
already has a definition on some line"; it is compared against the plain
substring test performed by the source. -/
def isDefLineFor (name l : Line) : Bool :=
  let s := pyStrip l
  if (chars "def").isPrefixOf s then
    match s.drop 3 with
    | [] => false
    | c :: rest =>
      pyWS c &&
      (let r := (c :: rest).dropWhile pyWS
       name.isPrefixOf r &&
         (((r.drop name.length).dropWhile pyWS).headD 'x' == '('))
  else false

/-- Modelled from the spec: the number of definitions of the named function
that are members of the Autobot class: lines strictly after the class anchor
line and before the first later non-blank line at zero indentation, indented
by exactly four spaces, that define the name. -/
def memberDefCount (name : Line) (f : PyFile) : Nat :=
  match findFirstIdx isClassAutobotLine f with
  | none => 0
  | some c =>
    let body := (f.drop (c + 1)).takeWhile
      (fun l => (pyStrip l).isEmpty || leadSpaces l != 0)
    (body.filter (fun l => leadSpaces l == 4 && isDefLineFor name l)).length

/-- Modelled from the spec: the insertion point as the spec describes it —
the last line after the class line, at the class-member indentation level
(the indentation of the class line plus four spaces), that begins a method
definition; defaulting to the class line itself when the class has no
methods, so that insertion lands immediately after the class line. -/
def specInsertionIndex (f : PyFile) (c : Nat) : Nat :=
  scanLastIdx
    (fun l => isDefStart l && (leadSpaces l == leadSpaces (lineAt f c) + 4))
    (f.drop (c + 1)) (c + 1) c

/-- Modelled from the spec: re-indent every line of the new function body by
exactly one nesting level (four spaces) relative to its indentation in the
request, preserving the internal nesting of the body. -/
def specReindent (newCode : Line) : List Line :=
  (pySplitNl (pyStrip newCode)).map (fun line => chars "    " ++ line)

-- Basic indexing lemmas for lineAt.

lemma lineAt_nil (i : Nat) : lineAt [] i = [] := by
  cases i <;> rfl

lemma lineAt_cons_succ (l : Line) (ls : PyFile) (i : Nat) :
    lineAt (l :: ls) (i + 1) = lineAt ls i := rfl

lemma lineAt_append_left (xs ys : PyFile) (i : Nat) (h : i < xs.length) :
    lineAt (xs ++ ys) i = lineAt xs i := by
  induction xs generalizing i with
  | nil => simp at h
  | cons x t ih =>
    cases i with
    | zero => rfl
    | succ j =>
      simp only [List.cons_append, lineAt_cons_succ]
      exact ih j (by simpa using h)

lemma lineAt_append_right (xs ys : PyFile) (j : Nat) :
    lineAt (xs ++ ys) (xs.length + j) = lineAt ys j := by
  induction xs with
  | nil => simp
  | cons x t ih =>
    have : (x :: t).length + j = (t.length + j) + 1 := by
      simp [List.length_cons]; omega
    rw [this]
    simpa using ih

lemma lineAt_take (f : PyFile) (k i : Nat) (h : i < k) :
    lineAt (f.take k) i = lineAt f i := by
  induction f generalizing k i with
  | nil => simp
  | cons x t ih =>
    cases k with
    | zero => omega
    | succ k =>
      cases i with
      | zero => rfl
      | succ j =>
        simp only [List.take_succ_cons, lineAt_cons_succ]
        exact ih k j (by omega)

lemma lineAt_drop (f : PyFile) (k j : Nat) :
    lineAt (f.drop k) j = lineAt f (k + j) := by
  induction f generalizing k with
  | nil => simp [lineAt_nil]
  | cons x t ih =>
    cases k with
    | zero => simp
    | succ k =>
      have : k + 1 + j = (k + j) + 1 := by omega
      rw [List.drop_succ_cons, this, lineAt_cons_succ]
      exact ih k

lemma lineAt_mem (f : PyFile) (i : Nat) (h : i < f.length) : lineAt f i ∈ f := by
  induction f generalizing i with
  | nil => simp at h
  | cons x t ih =>
    cases i with
    | zero => exact List.mem_cons_self x t
    | succ j => exact List.mem_cons_of_mem x (ih j (by simpa using h))

lemma exists_lineAt_of_mem {f : PyFile} {l : Line} (h : l ∈ f) :
    ∃ i, i < f.length ∧ lineAt f i = l := by
  induction f with
  | nil => simp at h
  | cons x t ih =>
    rcases List.mem_cons.mp h with rfl | hm
    · exact ⟨0, by simp, rfl⟩
    · obtain ⟨i, hi, he⟩ := ih hm
      exact ⟨i + 1, by simpa using hi, he⟩

-- Characterization of the last-match scan.

lemma scanLastIdx_of_none (p : Line → Bool) (ls : PyFile) (base acc : Nat)
    (h : ∀ l ∈ ls, p l = false) : scanLastIdx p ls base acc = acc := by
  induction ls generalizing base acc with
  | nil => rfl
  | cons l t ih =>
    have hl : p l = false := h l (List.mem_cons_self l t)
    simp only [scanLastIdx, hl, if_neg Bool.false_ne_true]
    exact ih (base + 1) acc (fun x hx => h x (List.mem_cons_of_mem l hx))

lemma scanLastIdx_cases (p : Line → Bool) (ls : PyFile) (base acc : Nat) :
    scanLastIdx p ls base acc = acc ∨
      ∃ j, j < ls.length ∧ scanLastIdx p ls base acc = base + j ∧
        p (lineAt ls j) = true := by
  induction ls generalizing base acc with
  | nil => exact Or.inl rfl
  | cons l t ih =>
    by_cases hl : p l = true
    · rcases ih (base + 1) base with h | ⟨j, hj, he, hp⟩
      · refine Or.inr ⟨0, by simp, ?_, by simpa using hl⟩
        simp [scanLastIdx, hl, h]
      · refine Or.inr ⟨j + 1, by simpa using hj, ?_, by simpa using hp⟩
        simp only [scanLastIdx, hl, if_true]
        omega
    · replace hl : p l = false := by
        cases hpl : p l
        · rfl
        · exact absurd hpl hl
      rcases ih (base + 1) acc with h | ⟨j, hj, he, hp⟩
      · exact Or.inl (by simp [scanLastIdx, hl, h])
      · refine Or.inr ⟨j + 1, by simpa using hj, ?_, by simpa using hp⟩
        simp only [scanLastIdx, hl, if_neg Bool.false_ne_true]
        omega

lemma scanLastIdx_ge (p : Line → Bool) (ls : PyFile) (base acc : Nat)
    (j : Nat) (hj : j < ls.length) (hp : p (lineAt ls j) = true) :
    base + j ≤ scanLastIdx p ls base acc := by
  induction ls generalizing base acc j with
  | nil => simp at hj
  | cons l t ih =>
    cases j with
    | zero =>
      have hl : p l = true := by simpa using hp
      simp only [scanLastIdx, hl, if_true]
      rcases scanLastIdx_cases p t (base + 1) base with h | ⟨j, _, he, _⟩
      · omega
      · omega
    | succ j =>
      have := ih (base + 1) (if p l then base else acc) j (by simpa using hj)
        (by simpa using hp)
      simp only [scanLastIdx]
      omega

-- Corollaries for the insertion scan of modify_self.

lemma lastFunctionIndex_ge_init (f : PyFile) (c : Nat) :
    c ≤ lastFunctionIndex f c := by
  unfold lastFunctionIndex
  rcases scanLastIdx_cases isDefStart (f.drop (c + 1)) (c + 1) c with h | ⟨j, _, he, _⟩
  · omega
  · omega

lemma lastFunctionIndex_cases (f : PyFile) (c : Nat) :
    lastFunctionIndex f c = c ∨
      (c < lastFunctionIndex f c ∧ lastFunctionIndex f c < f.length ∧
        isDefStart (lineAt f (lastFunctionIndex f c)) = true) := by
  unfold lastFunctionIndex
  rcases scanLastIdx_cases isDefStart (f.drop (c + 1)) (c + 1) c with h | ⟨j, hj, he, hp⟩
  · exact Or.inl h
  · have hlen : (f.drop (c + 1)).length = f.length - (c + 1) := List.length_drop _ _
    right
    refine ⟨by omega, by omega, ?_⟩
    rw [he]
    rw [lineAt_drop] at hp
    exact hp

lemma lastFunctionIndex_ge (f : PyFile) (c i : Nat) (h1 : c < i)
    (h2 : i < f.length) (hp : isDefStart (lineAt f i) = true) :
    i ≤ lastFunctionIndex f c := by
  unfold lastFunctionIndex
  have hlen : (f.drop (c + 1)).length = f.length - (c + 1) := List.length_drop _ _
  have hj : i - (c + 1) < (f.drop (c + 1)).length := by omega
  have hp' : isDefStart (lineAt (f.drop (c + 1)) (i - (c + 1))) = true := by
    rw [lineAt_drop]
    have : c + 1 + (i - (c + 1)) = i := by omega
    rw [this]; exact hp
  have := scanLastIdx_ge isDefStart (f.drop (c + 1)) (c + 1) c (i - (c + 1)) hj hp'
  omega

lemma lastFunctionIndex_of_no_def (f : PyFile) (c : Nat)
    (h : ∀ i, c < i → i < f.length → isDefStart (lineAt f i) = false) :
    lastFunctionIndex f c = c := by
  unfold lastFunctionIndex
  refine scanLastIdx_of_none _ _ _ _ (fun l hl => ?_)
  obtain ⟨j, hj, he⟩ := exists_lineAt_of_mem hl
  have hlen : (f.drop (c + 1)).length = f.length - (c + 1) := List.length_drop _ _
  rw [lineAt_drop] at he
  rw [← he]
  exact h (c + 1 + j) (by omega) (by omega)

-- Characterization of the first-match search.

lemma findFirstIdx_some {p : Line → Bool} {f : PyFile} {c : Nat}
    (h : findFirstIdx p f = some c) :
    c < f.length ∧ p (lineAt f c) = true ∧ ∀ i, i < c → p (lineAt f i) = false := by
  induction f generalizing c with
  | nil => simp [findFirstIdx] at h
  | cons l t ih =>
    by_cases hl : p l = true
    · simp only [findFirstIdx, hl, if_true, Option.some.injEq] at h
      subst h
      exact ⟨by simp, by simpa using hl, fun i hi => by omega⟩
    · replace hl : p l = false := by
        cases hpl : p l
        · rfl
        · exact absurd hpl hl
      simp only [findFirstIdx, hl, if_neg Bool.false_ne_true, Option.map_eq_some'] at h
      obtain ⟨c', hc', rfl⟩ := h
      obtain ⟨h1, h2, h3⟩ := ih hc'
      refine ⟨by simpa using h1, by simpa using h2, fun i hi => ?_⟩
      cases i with
      | zero => simpa using hl
      | succ i => exact h3 i (by omega)

lemma findFirstIdx_of {p : Line → Bool} {f : PyFile} {c : Nat}
    (hlt : c < f.length) (hp : p (lineAt f c) = true)
    (hmin : ∀ i, i < c → p (lineAt f i) = false) :
    findFirstIdx p f = some c := by
  induction f generalizing c with
  | nil => simp at hlt
  | cons l t ih =>
    cases c with
    | zero =>
      have hl : p l = true := by simpa using hp
      simp [findFirstIdx, hl]
    | succ c =>
      have hl : p l = false := by simpa using hmin 0 (by omega)
      simp only [findFirstIdx, hl, if_neg Bool.false_ne_true]
      rw [ih (by simpa using hlt) (by simpa using hp)
        (fun i hi => by simpa using hmin (i + 1) (by omega))]
      rfl

-- Round trips between raw file content and the readlines decomposition.

lemma consLine_ne_nil (c : Char) (X : PyFile) : consLine c X ≠ [] := by
  cases X <;> simp [consLine]

lemma flatten_readLines (s : Line) : List.flatten (readLines s) = s := by
  induction s with
  | nil => rfl
  | cons c cs ih =>
    by_cases hc : c = '\n'
    · subst hc
      have h1 : readLines ('\n' :: cs) = ['\n'] :: readLines cs := by
        simp [readLines]
      rw [h1, List.flatten_cons, ih]
      simp
    · simp only [readLines, if_neg hc]
      cases hr : readLines cs with
      | nil =>
        rw [hr] at ih
        have hcs : cs = [] := by simpa using ih.symm
        subst hcs
        rfl
      | cons l ls =>
        simp only [consLine, List.flatten_cons, List.cons_append]
        rw [← List.flatten_cons, ← hr, ih]

lemma readLines_append_wf (u : Line) (rest : Line) (hnl : '\n' ∉ u) :
    readLines (u ++ '\n' :: rest) = (u ++ ['\n']) :: readLines rest := by
  induction u with
  | nil => simp [readLines]
  | cons c u ih =>
    have hc : c ≠ '\n' := fun h => hnl (h ▸ List.mem_cons_self c u)
    have hu : '\n' ∉ u := fun h => hnl (List.mem_cons_of_mem c h)
    simp only [List.cons_append, readLines, if_neg hc]
    show consLine c (readLines (u ++ '\n' :: rest)) = (c :: (u ++ ['\n'])) :: readLines rest
    rw [ih hu]
    simp [consLine]

lemma wfLine_decomp {l : Line} (h : wfLine l = true) :
    ∃ u, l = u ++ ['\n'] ∧ '\n' ∉ u := by
  induction l with
  | nil => simp [wfLine] at h
  | cons c t ih =>
    cases t with
    | nil =>
      have : c = '\n' := by simpa [wfLine] using h
      exact ⟨[], by simp [this], by simp⟩
    | cons d s =>
      have h1 : wfLine (d :: s) = true := by
        simp only [wfLine, Bool.and_eq_true, beq_iff_eq, Bool.not_eq_true',
          List.any_eq_false] at h ⊢
        obtain ⟨hlast, hany⟩ := h
        refine ⟨by simpa using hlast, fun x hx => ?_⟩
        exact hany x (by simpa using Or.inr hx)
      have hc : c ≠ '\n' := by
        simp only [wfLine, Bool.and_eq_true, Bool.not_eq_true',
          List.any_eq_false] at h
        have := h.2 c (by simp)
        simpa using this
      obtain ⟨u, hu, hnl⟩ := ih h1
      exact ⟨c :: u, by simp [hu], by
        intro hm
        rcases List.mem_cons.mp hm with h' | h'
        · exact hc h'.symm
        · exact hnl h'⟩

lemma readLines_flatten_append (X : PyFile) (rest : Line)
    (h : ∀ l ∈ X, wfLine l = true) :
    readLines (List.flatten X ++ rest) = X ++ readLines rest := by
  induction X with
  | nil => simp
  | cons l t ih =>
    obtain ⟨u, hu, hnl⟩ := wfLine_decomp (h l (List.mem_cons_self l t))
    have ht : ∀ x ∈ t, wfLine x = true := fun x hx => h x (List.mem_cons_of_mem l hx)
    subst hu
    simp only [List.flatten_cons, List.append_assoc, List.singleton_append]
    show readLines (u ++ '\n' :: (List.flatten t ++ rest)) =
      ((u ++ ['\n']) :: t) ++ readLines rest
    rw [readLines_append_wf u _ hnl, ih ht]
    rfl

lemma readLines_flatten_of_wf (X : PyFile) (h : ∀ l ∈ X, wfLine l = true) :
    readLines (List.flatten X) = X := by
  have := readLines_flatten_append X [] h
  simpa [readLines] using this

-- Structure of the split used on the request body.

lemma pySplitNl_ne_nil (s : Line) : pySplitNl s ≠ [] := by
  induction s with
  | nil => simp [pySplitNl]
  | cons c cs ih =>
    simp only [pySplitNl]
    by_cases hc : c = '\n'
    · simp [hc]
    · simp only [if_neg hc]
      exact consLine_ne_nil c (pySplitNl cs)

lemma no_nl_of_mem_pySplitNl {s : Line} {l : Line} (h : l ∈ pySplitNl s) :
    '\n' ∉ l := by
  induction s generalizing l with
  | nil =>
    simp only [pySplitNl, List.mem_singleton] at h
    subst h; simp
  | cons c cs ih =>
    simp only [pySplitNl] at h
    by_cases hc : c = '\n'
    · rw [if_pos hc] at h
      rcases List.mem_cons.mp h with rfl | hm
      · simp
      · exact ih hm
    · rw [if_neg hc] at h
      cases hr : pySplitNl cs with
      | nil => exact absurd hr (pySplitNl_ne_nil cs)
      | cons l0 ls =>
        rw [hr] at h
        simp only [consLine] at h
        rcases List.mem_cons.mp h with rfl | hm
        · intro hmem
          rcases List.mem_cons.mp hmem with h' | h'
          · exact hc h'.symm
          · exact ih (hr ▸ List.mem_cons_self l0 ls) h'
        · exact ih (hr ▸ List.mem_cons_of_mem l0 hm)

lemma joinNl_map_append_nl (fs : List Line) (hne : fs ≠ []) :
    joinNl fs ++ ['\n'] = List.flatten (fs.map (fun l => l ++ ['\n'])) := by
  induction fs with
  | nil => exact absurd rfl hne
  | cons x t ih =>
    cases t with
    | nil => simp [joinNl]
    | cons y s =>
      have := ih (by simp)
      simp only [joinNl, List.map_cons, List.flatten_cons] at this ⊢
      rw [List.append_assoc]
      simp only [List.cons_append, List.nil_append]
      rw [this]
      simp

-- Strip facts about the formatted block lines.

lemma pyLStrip_head_not_ws (l : Line) :
    pyLStrip l = [] ∨ ∃ c t, pyLStrip l = c :: t ∧ pyWS c = false := by
  induction l with
  | nil => exact Or.inl rfl
  | cons c t ih =>
    by_cases hc : pyWS c = true
    · simpa [pyLStrip, List.dropWhile_cons, hc] using ih
    · refine Or.inr ⟨c, t, ?_, by simpa using hc⟩
      simp [pyLStrip, List.dropWhile_cons, hc]

lemma pyLStrip_four_spaces (y : Line) :
    pyLStrip (chars "    " ++ y) = pyLStrip y := by
  have hsp : pyWS ' ' = true := rfl
  simp [pyLStrip, chars, List.dropWhile_cons, hsp]

lemma pyRStrip_append_nl (y : Line) : pyRStrip (y ++ ['\n']) = pyRStrip y := by
  have h : pyWS '\n' = true := rfl
  simp [pyRStrip, List.dropWhile_cons, h]

lemma pyStrip_block_line (l : Line) :
    pyStrip (chars "    " ++ (pyLStrip l ++ ['\n'])) = pyStrip l := by
  unfold pyStrip
  rw [pyLStrip_four_spaces]
  rcases pyLStrip_head_not_ws l with h | ⟨c, t, h, hc⟩
  · rw [h]
    have h2 : pyLStrip (([] : Line) ++ ['\n']) = [] := rfl
    rw [h2]
  · rw [h]
    have hstop : pyLStrip ((c :: t) ++ ['\n']) = (c :: t) ++ ['\n'] := by
      simp [pyLStrip, List.dropWhile_cons, hc]
    rw [hstop, pyRStrip_append_nl]

lemma isDefStart_block_line (l : Line) :
    isDefStart (chars "    " ++ (pyLStrip l ++ ['\n'])) = isDefStart l := by
  unfold isDefStart
  rw [pyStrip_block_line]

-- Substring containment facts.

lemma containsSub_nil_pat (s : Line) : containsSub s [] = true := by
  induction s with
  | nil => rfl
  | cons c t ih => simp [containsSub, List.isPrefixOf]

lemma containsSub_append_left (x y pat : Line) (h : containsSub x pat = true) :
    containsSub (x ++ y) pat = true := by
  induction x with
  | nil =>
    have : pat = [] := by simpa [containsSub, List.isEmpty_iff] using h
    subst this
    exact containsSub_nil_pat y
  | cons c t ih =>
    simp only [containsSub, Bool.or_eq_true] at h
    rcases h with h | h
    · have hp : pat <+: c :: t := List.isPrefixOf_iff_prefix.mp h
      have hp2 : pat <+: (c :: t) ++ y := hp.trans (List.prefix_append _ _)
      simp only [List.cons_append, containsSub, Bool.or_eq_true]
      exact Or.inl (List.isPrefixOf_iff_prefix.mpr (by simpa using hp2))
    · simp only [List.cons_append, containsSub, Bool.or_eq_true]
      exact Or.inr (ih h)

lemma containsSub_append_right (x y pat : Line) (h : containsSub y pat = true) :
    containsSub (x ++ y) pat = true := by
  induction x with
  | nil => simpa using h
  | cons c t ih =>
    simp only [List.cons_append, containsSub, Bool.or_eq_true]
    exact Or.inr ih

lemma containsSub_dropWhile_ws (l pat : Line) (hne : pat ≠ [])
    (hhead : pyWS (pat.headD ' ') = false) (h : containsSub l pat = true) :
    containsSub (l.dropWhile pyWS) pat = true := by
  induction l with
  | nil =>
    have : pat = [] := by simpa [containsSub, List.isEmpty_iff] using h
    exact absurd this hne
  | cons c t ih =>
    by_cases hc : pyWS c = true
    · rw [List.dropWhile_cons, if_pos hc]
      refine ih ?_
      simp only [containsSub, Bool.or_eq_true] at h
      rcases h with h | h
      · exfalso
        cases pat with
        | nil => exact hne rfl
        | cons p0 pr =>
          have hp : (p0 :: pr) <+: c :: t := List.isPrefixOf_iff_prefix.mp h
          obtain ⟨w, hw⟩ := hp
          have hp0 : p0 = c := by
            simp only [List.cons_append, List.cons.injEq] at hw
            exact hw.1
          have hws : pyWS p0 = false := by simpa using hhead
          rw [hp0, hc] at hws
          simp at hws
      · exact h
    · rw [List.dropWhile_cons, if_neg hc]
      exact h

-- Inversion lemmas for the two modify_self models.

lemma modify162647_success_cases (f : PyFile) (nc fn : Line) (env : Env162647) :
    (modify_self_162647 f nc fn env).result = .success →
    f.any (fun line => containsSub line (defPat fn)) = false ∧
    containsSub env.compileOutput (chars "SyntaxError") = false ∧
    env.reloadRaises = false ∧ env.hasattrResult = true ∧ env.execvRaises = false ∧
    isDefStart ((pySplitNl (pyStrip nc)).headD []) = true ∧
    ∃ c, findFirstIdx isClassAutobotLine f = some c ∧
      (modify_self_162647 f nc fn env).file =
        List.flatten (insertPy (lastFunctionIndex f c + 1) (insBlock162647 nc) f) := by
  unfold modify_self_162647
  split
  · intro h; exact absurd h (by simp)
  next hdup =>
    split
    · intro h; exact absurd h (by simp)
    next c heq =>
      split
      · intro h; exact absurd h (by simp)
      next hdef =>
        split
        · intro h; exact absurd h (by simp)
        next hcomp =>
          split
          · intro h; exact absurd h (by simp)
          next hrel =>
            split
            · intro h; exact absurd h (by simp)
            next hhas =>
              split
              · intro h; exact absurd h (by simp)
              next hexec =>
                intro _
                refine ⟨by simpa using hdup, by simpa using hcomp,
                  by simpa using hrel, by simpa using hhas, by simpa using hexec,
                  by simpa using hdef, c, heq, rfl⟩

lemma modify162647_failure_file (f : PyFile) (nc fn : Line) (env : Env162647) :
    isFailure (modify_self_162647 f nc fn env).result = true →
    (modify_self_162647 f nc fn env).file = List.flatten f := by
  unfold modify_self_162647
  split
  · intro _; rfl
  · split
    · intro _; rfl
    · split
      · intro _; rfl
      · split
        · intro _; rfl
        · split
          · intro _; rfl
          · split
            · intro _; rfl
            · split
              · intro _; rfl
              · intro h; simp [isFailure] at h

lemma modify154611_file_eq (f : PyFile) (nc fn : Line) :
    (modify_self_154611 f nc fn).file = List.flatten f := by
  unfold modify_self_154611
  split
  · rfl
  · split
    · rfl
    · rfl

lemma modify154611_never_success (f : PyFile) (nc fn : Line) :
    (modify_self_154611 f nc fn).result ≠ .success := by
  unfold modify_self_154611
  split
  · simp
  · split <;> simp

lemma modify154611_after_checks (f : PyFile) (nc fn : Line)
    (hdup : f.any (fun line => containsSub line (defPat fn)) = false)
    {c : Nat} (heq : findFirstIdx isClassAutobotLine f = some c) :
    modify_self_154611 f nc fn =
      ⟨.exceptRollback, List.flatten f,
        [List.flatten (insertPy (lastFunctionIndex f c + 1)
          (insBlock154611 nc) f), List.flatten f]⟩ := by
  unfold modify_self_154611
  rw [heq]
  simp [hdup]

lemma modify162647_dup (f : PyFile) (nc fn : Line) (env : Env162647)
    (h : f.any (fun line => containsSub line (defPat fn)) = true) :
    modify_self_162647 f nc fn env = ⟨.dupExists, List.flatten f, []⟩ := by
  unfold modify_self_162647
  simp [h]

lemma modify154611_dup (f : PyFile) (nc fn : Line)
    (h : f.any (fun line => containsSub line (defPat fn)) = true) :
    modify_self_154611 f nc fn = ⟨.dupExists, List.flatten f, []⟩ := by
  unfold modify_self_154611
  simp [h]

lemma modify162647_dup_iff (f : PyFile) (nc fn : Line) (env : Env162647) :
    (modify_self_162647 f nc fn env).result = .dupExists ↔
      f.any (fun line => containsSub line (defPat fn)) = true := by
  constructor
  · unfold modify_self_162647
    split
    next h => intro _; exact h
    next h =>
      split
      · intro hh; exact absurd hh (by simp)
      · split
        · intro hh; exact absurd hh (by simp)
        · split
          · intro hh; exact absurd hh (by simp)
          · split
            · intro hh; exact absurd hh (by simp)
            · split
              · intro hh; exact absurd hh (by simp)
              · split
                · intro hh; exact absurd hh (by simp)
                · intro hh; exact absurd hh (by simp)
  · intro h
    rw [modify162647_dup f nc fn env h]

lemma modify154611_dup_iff (f : PyFile) (nc fn : Line) :
    (modify_self_154611 f nc fn).result = .dupExists ↔
      f.any (fun line => containsSub line (defPat fn)) = true := by
  constructor
  · unfold modify_self_154611
    split
    next h => intro _; exact h
    next h =>
      split
      · intro hh; exact absurd hh (by simp)
      · intro hh; exact absurd hh (by simp)
  · intro h
    rw [modify154611_dup f nc fn h]

lemma modify162647_malformed (f : PyFile) (nc fn : Line) (env : Env162647)
    (hdup : f.any (fun line => containsSub line (defPat fn)) = false)
    {c : Nat} (heq : findFirstIdx isClassAutobotLine f = some c)
    (hnd : isDefStart ((pySplitNl (pyStrip nc)).headD []) = false) :
    modify_self_162647 f nc fn env = ⟨.malformed, List.flatten f, []⟩ := by
  unfold modify_self_162647
  rw [heq, hdup, hnd]
  simp

-- Structure of the patched file as seen through readlines.

lemma lineAt_map_fmt (g : Line → Line) (xs : List Line) (j : Nat)
    (h : j < xs.length) : lineAt (xs.map g) j = g (lineAt xs j) := by
  induction xs generalizing j with
  | nil => simp at h
  | cons x t ih =>
    cases j with
    | zero => rfl
    | succ j =>
      simp only [List.map_cons, lineAt_cons_succ]
      exact ih j (by simpa using h)

lemma wfLine_append_nl (x : Line) (h : '\n' ∉ x) : wfLine (x ++ ['\n']) = true := by
  have h1 : (x ++ ['\n']).getLast? = some '\n' := List.getLast?_concat x
  have h2 : (x ++ ['\n']).dropLast = x := List.dropLast_concat
  simp only [wfLine, h1, h2, beq_self_eq_true, Bool.true_and, Bool.not_eq_true',
    List.any_eq_false]
  intro c hc
  simp only [beq_iff_eq]
  intro hcc
  exact h (hcc ▸ hc)

lemma no_nl_fmt_line (nc raw : Line) (hraw : raw ∈ pySplitNl (pyStrip nc)) :
    '\n' ∉ chars "    " ++ pyLStrip raw := by
  intro hmem
  rcases List.mem_append.mp hmem with h | h
  · simp [chars] at h
  · exact no_nl_of_mem_pySplitNl hraw ((List.dropWhile_sublist pyWS).subset h)

lemma blockLines_wf (nc : Line) :
    ∀ l ∈ ['\n'] :: (formatBody162647 nc).map (fun x => x ++ ['\n']),
      wfLine l = true := by
  intro l hl
  rcases List.mem_cons.mp hl with rfl | hm
  · rfl
  · obtain ⟨x, hx, rfl⟩ := List.mem_map.mp hm
    obtain ⟨raw, hraw, rfl⟩ := List.mem_map.mp hx
    exact wfLine_append_nl _ (no_nl_fmt_line nc raw hraw)

lemma insBlock162647_flatten (nc : Line) :
    insBlock162647 nc =
      List.flatten (['\n'] :: (formatBody162647 nc).map (fun x => x ++ ['\n'])) := by
  have hne : formatBody162647 nc ≠ [] := by
    unfold formatBody162647
    simp only [ne_eq, List.map_eq_nil_iff]
    exact pySplitNl_ne_nil _
  unfold insBlock162647
  rw [List.flatten_cons, ← joinNl_map_append_nl _ hne]
  simp [chars]

/-- The line decomposition produced by readlines on the file written by the
success path of variant 162647: the original lines before the insertion
point, a blank line, the formatted body lines each with a newline appended,
then the original lines from the insertion point on. -/
def linesAfterPatch (f : PyFile) (nc : Line) (p : Nat) : PyFile :=
  f.take p ++ ['\n'] :: (formatBody162647 nc).map (fun x => x ++ ['\n'])
    ++ f.drop p

lemma readLines_success_file (f : PyFile) (nc : Line) (p : Nat)
    (hwf : ∀ l ∈ f, wfLine l = true) :
    readLines (List.flatten (insertPy p (insBlock162647 nc) f)) =
      linesAfterPatch f nc p := by
  unfold linesAfterPatch
  unfold insertPy
  rw [List.flatten_append, List.flatten_cons, insBlock162647_flatten]
  have htake : ∀ l ∈ f.take p, wfLine l = true :=
    fun l hl => hwf l (List.take_subset p f hl)
  have hdrop : ∀ l ∈ f.drop p, wfLine l = true :=
    fun l hl => hwf l (List.drop_subset p f hl)
  rw [readLines_flatten_append _ _ htake]
  rw [readLines_flatten_append _ _ (blockLines_wf nc)]
  rw [readLines_flatten_of_wf _ hdrop]
  simp

-- Indexing into the re-read patched file.

lemma length_linesAfterPatch (f : PyFile) (nc : Line) (p : Nat)
    (hp : p ≤ f.length) :
    (linesAfterPatch f nc p).length =
      f.length + (formatBody162647 nc).length + 1 := by
  unfold linesAfterPatch
  simp only [List.length_append, List.length_cons, List.length_map,
    List.length_take, List.length_drop]
  omega

lemma length_front_lap (f : PyFile) (nc : Line) (p : Nat) (hp : p ≤ f.length) :
    (f.take p ++ ['\n'] :: (formatBody162647 nc).map (fun x => x ++ ['\n'])).length
      = p + 1 + (formatBody162647 nc).length := by
  simp only [List.length_append, List.length_cons, List.length_map,
    List.length_take]
  omega

lemma lineAt_lap_lt (f : PyFile) (nc : Line) (p i : Nat) (hp : p ≤ f.length)
    (hi : i < p) : lineAt (linesAfterPatch f nc p) i = lineAt f i := by
  unfold linesAfterPatch
  rw [lineAt_append_left _ _ i (by rw [length_front_lap f nc p hp]; omega)]
  rw [lineAt_append_left _ _ i (by rw [List.length_take]; omega)]
  exact lineAt_take f p i hi

lemma lineAt_lap_block (f : PyFile) (nc : Line) (p j : Nat) (hp : p ≤ f.length)
    (hj : j < (formatBody162647 nc).length) :
    lineAt (linesAfterPatch f nc p) (p + 1 + j) =
      lineAt (formatBody162647 nc) j ++ ['\n'] := by
  unfold linesAfterPatch
  rw [lineAt_append_left _ _ _ (by rw [length_front_lap f nc p hp]; omega)]
  have h1 : p + 1 + j = (f.take p).length + (j + 1) := by
    rw [List.length_take]; omega
  rw [h1, lineAt_append_right, lineAt_cons_succ]
  exact lineAt_map_fmt _ _ j hj

lemma lineAt_lap_drop (f : PyFile) (nc : Line) (p j : Nat) (hp : p ≤ f.length) :
    lineAt (linesAfterPatch f nc p) (p + 1 + (formatBody162647 nc).length + j) =
      lineAt f (p + j) := by
  unfold linesAfterPatch
  have h1 : p + 1 + (formatBody162647 nc).length + j =
      (f.take p ++ ['\n'] :: (formatBody162647 nc).map (fun x => x ++ ['\n'])).length
        + j := by
    rw [length_front_lap f nc p hp]
  rw [h1, lineAt_append_right, lineAt_drop]

lemma lap_class_idx (f : PyFile) (nc : Line) (c : Nat)
    (heq : findFirstIdx isClassAutobotLine f = some c) :
    findFirstIdx isClassAutobotLine
      (linesAfterPatch f nc (lastFunctionIndex f c + 1)) = some c := by
  obtain ⟨hclt, hcp, hcmin⟩ := findFirstIdx_some heq
  have hge := lastFunctionIndex_ge_init f c
  have hple : lastFunctionIndex f c + 1 ≤ f.length := by
    rcases lastFunctionIndex_cases f c with h | ⟨_, h2, _⟩ <;> omega
  apply findFirstIdx_of
  · rw [length_linesAfterPatch f nc _ hple]
    omega
  · rw [lineAt_lap_lt f nc _ c hple (by omega)]
    exact hcp
  · intro i hi
    rw [lineAt_lap_lt f nc _ i hple (by omega)]
    exact hcmin i hi

lemma lap_lastFunctionIndex (f : PyFile) (nc : Line) (c : Nat)
    (heq : findFirstIdx isClassAutobotLine f = some c)
    (hdef1 : isDefStart ((pySplitNl (pyStrip nc)).headD []) = true)
    (hnn : ∀ l ∈ (pySplitNl (pyStrip nc)).tail, isDefStart l = false) :
    lastFunctionIndex (linesAfterPatch f nc (lastFunctionIndex f c + 1)) c =
      lastFunctionIndex f c + 2 ∧
    lineAt (linesAfterPatch f nc (lastFunctionIndex f c + 1))
        (lastFunctionIndex f c + 2) =
      chars "    " ++ pyLStrip ((pySplitNl (pyStrip nc)).headD []) ++ ['\n'] := by
  obtain ⟨hclt, hcp, hcmin⟩ := findFirstIdx_some heq
  have hgeinit := lastFunctionIndex_ge_init f c
  have hple : lastFunctionIndex f c + 1 ≤ f.length := by
    rcases lastFunctionIndex_cases f c with h | ⟨_, h2, _⟩ <;> omega
  set p := lastFunctionIndex f c + 1 with hpdef
  cases hsp : pySplitNl (pyStrip nc) with
  | nil => exact absurd hsp (pySplitNl_ne_nil _)
  | cons raw1 restL =>
  have hK : (formatBody162647 nc).length = restL.length + 1 := by
    unfold formatBody162647
    rw [hsp]
    simp
  have hKpos : 0 < (formatBody162647 nc).length := by omega
  have h0 : lineAt (formatBody162647 nc) 0 = chars "    " ++ pyLStrip raw1 := by
    unfold formatBody162647
    rw [hsp]
    rfl
  have hline1 : lineAt (linesAfterPatch f nc p) (p + 1) =
      chars "    " ++ pyLStrip raw1 ++ ['\n'] := by
    have hb := lineAt_lap_block f nc p 0 hple hKpos
    rw [h0] at hb
    simpa using hb
  have hdef_p1 : isDefStart (lineAt (linesAfterPatch f nc p) (p + 1)) = true := by
    rw [hline1, List.append_assoc, isDefStart_block_line]
    rw [hsp] at hdef1
    simpa using hdef1
  have hlenL1 : (linesAfterPatch f nc p).length =
      f.length + (formatBody162647 nc).length + 1 :=
    length_linesAfterPatch f nc p hple
  have hnodef : ∀ i, p + 1 < i → i < (linesAfterPatch f nc p).length →
      isDefStart (lineAt (linesAfterPatch f nc p) i) = false := by
    intro i hi1 hi2
    by_cases hcase : i ≤ p + (formatBody162647 nc).length
    · have hj : i - (p + 1) < (formatBody162647 nc).length := by omega
      have hidx : p + 1 + (i - (p + 1)) = i := by omega
      have hb := lineAt_lap_block f nc p (i - (p + 1)) hple hj
      rw [hidx] at hb
      rw [hb]
      obtain ⟨j', hj'⟩ : ∃ j', i - (p + 1) = j' + 1 := ⟨i - (p + 1) - 1, by omega⟩
      have hj'len : j' < restL.length := by omega
      have hfl : lineAt (formatBody162647 nc) (i - (p + 1)) =
          chars "    " ++ pyLStrip (lineAt restL j') := by
        unfold formatBody162647
        rw [hsp, hj', List.map_cons, lineAt_cons_succ]
        exact lineAt_map_fmt _ restL j' hj'len
      rw [hfl, List.append_assoc, isDefStart_block_line]
      apply hnn
      rw [hsp]
      exact lineAt_mem restL j' hj'len
    · obtain ⟨j, rfl⟩ : ∃ j, i = p + 1 + (formatBody162647 nc).length + j :=
        ⟨i - (p + 1) - (formatBody162647 nc).length, by omega⟩
      rw [lineAt_lap_drop f nc p j hple]
      cases hd : isDefStart (lineAt f (p + j)) with
      | false => rfl
      | true =>
        exfalso
        have hlt : p + j < f.length := by
          rw [hlenL1] at hi2
          omega
        have := lastFunctionIndex_ge f c (p + j) (by omega) hlt hd
        omega
  have hp1lt : p + 1 < (linesAfterPatch f nc p).length := by
    rw [hlenL1]
    omega
  have hge2 := lastFunctionIndex_ge (linesAfterPatch f nc p) c (p + 1)
    (by omega) hp1lt hdef_p1
  have heqlfi : lastFunctionIndex (linesAfterPatch f nc p) c = p + 1 := by
    rcases lastFunctionIndex_cases (linesAfterPatch f nc p) c with h | ⟨h1, h2, h3⟩
    · omega
    · by_cases hgt : p + 1 < lastFunctionIndex (linesAfterPatch f nc p) c
      · rw [hnodef _ hgt h2] at h3
        simp at h3
      · omega
  refine ⟨by rw [heqlfi], ?_⟩
  rw [show lastFunctionIndex f c + 2 = p + 1 by omega, hline1]
  rfl

-- Membership and containment transfer into the patched file.

lemma mem_lap_of_mem_block (f : PyFile) (nc : Line) (p : Nat) (x : Line)
    (h : x ∈ (formatBody162647 nc).map (fun l => l ++ ['\n'])) :
    x ∈ linesAfterPatch f nc p := by
  unfold linesAfterPatch
  simp only [List.mem_append, List.mem_cons]
  exact Or.inl (Or.inr (Or.inr h))

lemma containsSub_fmt_line (raw pat : Line) (hne : pat ≠ [])
    (hhead : pyWS (pat.headD ' ') = false) (h : containsSub raw pat = true) :
    containsSub (chars "    " ++ pyLStrip raw ++ ['\n']) pat = true := by
  apply containsSub_append_left
  apply containsSub_append_right
  exact containsSub_dropWhile_ws raw pat hne hhead h

lemma defPat_ne_nil (n : Line) : defPat n ≠ [] := by
  unfold defPat chars
  simp

lemma defPat_head (n : Line) : pyWS ((defPat n).headD ' ') = false := by
  unfold defPat chars
  rfl

-- Leading whitespace of the formatted body lines.

lemma leadWs_four_prepend (l : Line) : leadWs (chars "    " ++ l) = 4 + leadWs l := by
  have hsp : pyWS ' ' = true := rfl
  simp [leadWs, chars, List.takeWhile_cons, hsp]
  omega

lemma leadWs_lstrip (l : Line) : leadWs (pyLStrip l) = 0 := by
  rcases pyLStrip_head_not_ws l with h | ⟨c, t, h, hc⟩
  · rw [h]
    rfl
  · rw [h]
    simp [leadWs, List.takeWhile_cons, hc]

-- Concrete files, bodies and environments used by the witnesses and
-- counterexamples below.

/-- A minimal target file: the Autobot class with one method. -/
def demoFile : PyFile :=
  [chars "class Autobot:\n", chars "    def __init__(self): pass\n"]

/-- Environment of an ordinary run: the py_compile output reports no error,
reload succeeds, the reloaded instance has the attribute, execv does not
raise. -/
def envUsual : Env162647 := ⟨[], false, true, false⟩

/-- File for the C1 counterexample: the class has a plain class attribute
named greet, and a module-level helper function follows the class.  The
insertion scan picks the helper line (the last def line in the file), so the
patched method lands inside helper, outside the class; hasattr still reports
true because of the class attribute, and the patched file is valid Python,
so the run genuinely completes the success path. -/
def fileC1 : PyFile :=
  [chars "class Autobot:\n",
   chars "    greet = None\n",
   chars "    def __init__(self):\n",
   chars "        pass\n",
   chars "\n",
   chars "def helper():\n",
   chars "    pass\n"]

/-- File for the C3 counterexample: greet is defined with a space before the
parenthesis, a form the substring test does not detect. -/
def fileC3 : PyFile :=
  [chars "class Autobot:\n",
   chars "    def greet (self):\n",
   chars "        pass\n"]

/-- Environment matching the real run on fileC3: the insertion makes the file
invalid, py_compile reports an IndentationError (whose text does not contain
the string SyntaxError), and the later import of the broken module raises,
landing in the exception handler. -/
def envC3 : Env162647 :=
  ⟨chars "IndentationError: expected an indented block", true, true, false⟩

/-- File for the C4 counterexample: the only lines whose stripped text begins
with def are the method at indentation four and a nested function at
indentation eight. -/
def fileC4 : PyFile :=
  [chars "class Autobot:\n",
   chars "    def __init__(self):\n",
   chars "        def inner():\n",
   chars "            pass\n"]

/-- Body for the C5 counterexample: a function with an if statement, whose
third line is indented by eight spaces in the request. -/
def bodyC5 : Line := chars "def f(self):\n    if x:\n        return 1"

/-- Body for the C7 counterexample: a single patch body carrying two
def lines; both are flattened to member indentation by variant 162647, the
file stays valid Python, and hasattr on the requested name a is true. -/
def bodyC7 : Line := chars "def a(self): pass\ndef b(self): pass"

/-- Body for the C8 counterexample: it defines the requested function with a
space before the parenthesis, so the inserted text never contains the
pattern def greet followed directly by a parenthesis. -/
def bodyC8 : Line := chars "def greet (self): pass"

-- Claim C1.

/-- C1 counterexample: on fileC1 the run completes the success path (the
checks genuinely pass in a real execution: the patched file is valid Python
and hasattr reports true through the class attribute greet), yet the re-read
patched file contains no definition of greet as a member of the Autobot
class — the new method landed inside the module-level helper function, so
the claim that a successful patch leaves exactly one definition of the
requested function as a class member is false. -/
theorem C1_counterexample :
    (modify_self_162647 fileC1 (chars "def greet(self): pass")
        (chars "greet") envUsual).result = .success ∧
    memberDefCount (chars "greet")
        (readLines (modify_self_162647 fileC1 (chars "def greet(self): pass")
          (chars "greet") envUsual).file) = 0 := by
  decide

/-- C1 amended: a run of variant 162647 that completes the success path
guarantees only this much: no pre-call line contained the duplicate pattern,
the external syntax check reported no SyntaxError text, and the final file is
the pre-call lines with the single re-indented block inserted immediately
after the last line whose stripped text begins with def; the new definition
is not guaranteed to lie inside the Autobot class, nor to define the
requested name. -/
theorem C1_amended_thm (f : PyFile) (nc fn : Line) (env : Env162647)
    (h : (modify_self_162647 f nc fn env).result = .success) :
    f.any (fun line => containsSub line (defPat fn)) = false ∧
    containsSub env.compileOutput (chars "SyntaxError") = false ∧
    ∃ c, findFirstIdx isClassAutobotLine f = some c ∧
      (modify_self_162647 f nc fn env).file =
        List.flatten (insertPy (lastFunctionIndex f c + 1)
          (insBlock162647 nc) f) := by
  obtain ⟨h1, h2, _, _, _, _, c, hc, hf⟩ := modify162647_success_cases f nc fn env h
  exact ⟨h1, h2, c, hc, hf⟩

/-- C1 witness: instantiating the amended theorem on a concrete successful
run on demoFile. -/
theorem C1_witness :
    demoFile.any (fun line => containsSub line (defPat (chars "greet"))) = false ∧
    (modify_self_162647 demoFile (chars "def greet(self): pass")
        (chars "greet") envUsual).file =
      List.flatten (insertPy 2
        (insBlock162647 (chars "def greet(self): pass")) demoFile) := by
  obtain ⟨h1, _, c, hc, hf⟩ := C1_amended_thm demoFile
    (chars "def greet(self): pass") (chars "greet") envUsual (by decide)
  have h0 : findFirstIdx isClassAutobotLine demoFile = some 0 := by decide
  rw [h0] at hc
  injection hc with hc
  subst hc
  have hl : lastFunctionIndex demoFile 0 + 1 = 2 := by decide
  rw [hl] at hf
  exact ⟨h1, hf⟩

-- Claim C2.

/-- C2: every invocation that returns a failure result — duplicate symbol,
missing anchor, malformed body, syntax error after insertion, verification
failure, or a caught exception — returns with the target file byte-identical
to its pre-call content, in both variants: the file was either never written
or restored from the pre-patch backup. -/
theorem C2_failure_restores (f : PyFile) (nc fn : Line) (env : Env162647) :
    (isFailure (modify_self_162647 f nc fn env).result = true →
      (modify_self_162647 f nc fn env).file = List.flatten f) ∧
    (isFailure (modify_self_154611 f nc fn).result = true →
      (modify_self_154611 f nc fn).file = List.flatten f) :=
  ⟨modify162647_failure_file f nc fn env, fun _ => modify154611_file_eq f nc fn⟩

/-- C2 witness: a malformed-body failure on a one-line file returns the file
unchanged. -/
theorem C2_witness :
    (modify_self_162647 [chars "class Autobot:\n"] (chars "x = 1")
        (chars "g") envUsual).file = List.flatten [chars "class Autobot:\n"] :=
  (C2_failure_restores [chars "class Autobot:\n"] (chars "x = 1")
    (chars "g") envUsual).1 (by decide)

-- Claim C3.

/-- C3 counterexample: in fileC3 the function greet has a genuine Python
definition on line 1 (written with a space before the parenthesis), yet the
substring test does not fire: the request is not rejected as a duplicate;
the run proceeds and writes the patched file, failing only later in the
exception handler (the patched file is invalid, py_compile reports an
IndentationError whose text does not contain SyntaxError, and the import
raises).  The claim that any existing definition triggers the
duplicate-symbol rejection is false. -/
theorem C3_counterexample :
    fileC3.any (fun l => isDefLineFor (chars "greet") l) = true ∧
    isDefLineFor (chars "greet") (lineAt fileC3 1) = true ∧
    (modify_self_162647 fileC3 (chars "def greet(self): pass")
        (chars "greet") envC3).result ≠ .dupExists ∧
    (modify_self_162647 fileC3 (chars "def greet(self): pass")
        (chars "greet") envC3).writes ≠ [] := by
  decide

/-- C3 amended: the duplicate rejection fires exactly on the substring test:
whenever some line of the file contains the text def, a space, the name and
an opening parenthesis, both variants reject with the duplicate failure,
perform no write, and return the file byte-identical to its pre-call
content; a definition in any other textual form is not rejected. -/
theorem C3_amended_thm (f : PyFile) (nc fn : Line) (env : Env162647)
    (h : f.any (fun line => containsSub line (defPat fn)) = true) :
    modify_self_162647 f nc fn env = ⟨.dupExists, List.flatten f, []⟩ ∧
    modify_self_154611 f nc fn = ⟨.dupExists, List.flatten f, []⟩ :=
  ⟨modify162647_dup f nc fn env h, modify154611_dup f nc fn h⟩

/-- C3 witness: a file whose only line contains the duplicate pattern is
rejected with no write. -/
theorem C3_witness :
    modify_self_162647 [chars "    def greet(self): pass\n"] (chars "x")
        (chars "greet") envUsual =
      ⟨.dupExists, List.flatten [chars "    def greet(self): pass\n"], []⟩ :=
  (C3_amended_thm [chars "    def greet(self): pass\n"] (chars "x")
    (chars "greet") envUsual (by decide)).1

-- Claim C4.

/-- C4 counterexample: in fileC4 the insertion scan picks index 2, the
nested function line at indentation eight, which is not a line at the class
member indentation level; the insertion point as the spec describes it is
index 1, the last method line at indentation four. -/
theorem C4_counterexample :
    lastFunctionIndex fileC4 0 = 2 ∧
    leadSpaces (lineAt fileC4 2) = 8 ∧
    specInsertionIndex fileC4 0 = 1 ∧
    lastFunctionIndex fileC4 0 ≠ specInsertionIndex fileC4 0 := by
  decide

/-- C4 amended: the insertion point used by both variants is the index of
the last line anywhere after the class line whose stripped text begins with
def and a space, regardless of its indentation or enclosing scope; when no
such line exists the insertion point stays at the class line itself, so
insertion lands immediately after the class line. -/
theorem C4_amended_thm (f : PyFile) (c : Nat) :
    ((∀ i, c < i → i < f.length → isDefStart (lineAt f i) = false) →
      lastFunctionIndex f c = c) ∧
    (∀ i, c < i → i < f.length → isDefStart (lineAt f i) = true →
      i ≤ lastFunctionIndex f c) ∧
    (lastFunctionIndex f c = c ∨
      (c < lastFunctionIndex f c ∧ lastFunctionIndex f c < f.length ∧
        isDefStart (lineAt f (lastFunctionIndex f c)) = true)) :=
  ⟨lastFunctionIndex_of_no_def f c,
   fun i h1 h2 hp => lastFunctionIndex_ge f c i h1 h2 hp,
   lastFunctionIndex_cases f c⟩

/-- C4 witness: the nested def line of fileC4 pushes the scan result to at
least its own index. -/
theorem C4_witness : 2 ≤ lastFunctionIndex fileC4 0 :=
  (C4_amended_thm fileC4 0).2.1 2 (by decide) (by decide) (by decide)

-- Claim C5.

/-- C5 counterexample: the third line of bodyC5 is indented by eight spaces
in the request; variant 162647 emits it with exactly four spaces of
indentation instead of re-indenting it by one level (which would give
twelve), so the internal nesting of the body is not preserved and the
inserted block differs from the spec re-indentation. -/
theorem C5_counterexample :
    lineAt (formatBody162647 bodyC5) 2 = chars "    return 1" ∧
    lineAt (specReindent bodyC5) 2 = chars "            return 1" ∧
    formatBody162647 bodyC5 ≠ specReindent bodyC5 ∧
    insBlock162647 bodyC5 ≠
      chars "\n" ++ joinNl (specReindent bodyC5) ++ chars "\n" := by
  decide

/-- C5 amended: variant 154611 prepends exactly four spaces to every body
line, adding one nesting level and preserving internal nesting, while
variant 162647 strips each line of its leading whitespace and then prepends
four spaces, so every line of its inserted block carries exactly four
characters of leading whitespace and internal nesting is flattened. -/
theorem C5_amended_thm (nc : Line) :
    (∀ l ∈ pySplitNl (pyStrip nc),
      chars "    " ++ l ∈ indentBody154611 nc ∧
      leadWs (chars "    " ++ l) = 4 + leadWs l) ∧
    (∀ x ∈ formatBody162647 nc, leadWs x = 4) := by
  constructor
  · intro l hl
    exact ⟨List.mem_map.mpr ⟨l, hl, rfl⟩, leadWs_four_prepend l⟩
  · intro x hx
    obtain ⟨raw, hraw, rfl⟩ := List.mem_map.mp hx
    rw [leadWs_four_prepend, leadWs_lstrip]

/-- C5 witness: instantiating the amended theorem on the doubly indented
line of bodyC5. -/
theorem C5_witness :
    leadWs (chars "    " ++ chars "        return 1") =
      4 + leadWs (chars "        return 1") :=
  ((C5_amended_thm bodyC5).1 (chars "        return 1") (by decide)).2

-- Claim C6.

/-- C6 counterexample: variant 154611 has no malformed-body check: a request
whose body contains no def line at all is not rejected as malformed; the
body is inserted and written to the target before the call fails at the
reload step, so the claim that such requests are rejected with the file
untouched and no write performed is false for that variant. -/
theorem C6_counterexample :
    (modify_self_154611 demoFile (chars "x = 1") (chars "auto_fix")).result
      ≠ .malformed ∧
    (modify_self_154611 demoFile (chars "x = 1") (chars "auto_fix")).writes
      ≠ [] ∧
    (modify_self_154611 demoFile (chars "x = 1") (chars "auto_fix")).result
      = .exceptRollback := by
  decide

/-- C6 amended: only variant 162647 checks the body: when the duplicate and
anchor checks pass and the first stripped body line does not begin with def
and a space, it rejects with the malformed failure, performs no write, and
leaves the file untouched; variant 154611 has no such check — it writes the
patched file and then fails at the reload step with the backup restored. -/
theorem C6_amended_thm (f : PyFile) (nc fn : Line) (env : Env162647)
    (hdup : f.any (fun line => containsSub line (defPat fn)) = false)
    (c : Nat) (heq : findFirstIdx isClassAutobotLine f = some c)
    (hnd : isDefStart ((pySplitNl (pyStrip nc)).headD []) = false) :
    modify_self_162647 f nc fn env = ⟨.malformed, List.flatten f, []⟩ ∧
    (modify_self_154611 f nc fn).result = .exceptRollback ∧
    (modify_self_154611 f nc fn).writes ≠ [] ∧
    (modify_self_154611 f nc fn).file = List.flatten f := by
  refine ⟨modify162647_malformed f nc fn env hdup heq hnd, ?_⟩
  rw [modify154611_after_checks f nc fn hdup heq]
  exact ⟨rfl, by simp, rfl⟩

/-- C6 witness: the malformed rejection of variant 162647 on demoFile with a
body that has no def line. -/
theorem C6_witness :
    modify_self_162647 demoFile (chars "x = 1") (chars "auto_fix") envUsual =
      ⟨.malformed, List.flatten demoFile, []⟩ :=
  (C6_amended_thm demoFile (chars "x = 1") (chars "auto_fix") envUsual
    (by decide) 0 (by decide) (by decide)).1

-- Claim C9.

/-- C9: in variant 154611 the global name autobot is never bound, so the
reload step raises NameError on every input that reaches it: modify_self
never returns its success result, and whenever the duplicate and anchor
checks pass the patched file is written, the exception handler restores the
backup, and the generic rollback failure is returned. -/
theorem C9_reload_name_error (f : PyFile) (nc fn : Line) :
    (modify_self_154611 f nc fn).result ≠ .success ∧
    (f.any (fun line => containsSub line (defPat fn)) = false →
      ∀ c, findFirstIdx isClassAutobotLine f = some c →
        (modify_self_154611 f nc fn).result = .exceptRollback ∧
        (modify_self_154611 f nc fn).file = List.flatten f ∧
        (modify_self_154611 f nc fn).writes =
          [List.flatten (insertPy (lastFunctionIndex f c + 1)
            (insBlock154611 nc) f), List.flatten f]) := by
  refine ⟨modify154611_never_success f nc fn, fun hdup c heq => ?_⟩
  rw [modify154611_after_checks f nc fn hdup heq]
  exact ⟨rfl, rfl, rfl⟩

/-- C9 witness: a run on demoFile that passes both checks lands in the
exception handler with the file restored. -/
theorem C9_witness :
    (modify_self_154611 demoFile (chars "def greet(self): pass")
        (chars "greet")).result = .exceptRollback ∧
    (modify_self_154611 demoFile (chars "def greet(self): pass")
        (chars "greet")).file = List.flatten demoFile := by
  have h := (C9_reload_name_error demoFile (chars "def greet(self): pass")
    (chars "greet")).2 (by decide) 0 (by decide)
  exact ⟨h.1, h.2.1⟩

-- Claim C10.

/-- C10: in both variants the duplicate rejection is returned exactly when
some line of the file contains the substring made of def, a space, the
function name and an opening parenthesis — a plain text test, so an
occurrence inside a comment or string literal triggers rejection, and a
genuine definition written in any other form escapes detection. -/
theorem C10_dup_is_substring_test (f : PyFile) (nc fn : Line)
    (env : Env162647) :
    ((modify_self_162647 f nc fn env).result = .dupExists ↔
      f.any (fun line => containsSub line (defPat fn)) = true) ∧
    ((modify_self_154611 f nc fn).result = .dupExists ↔
      f.any (fun line => containsSub line (defPat fn)) = true) :=
  ⟨modify162647_dup_iff f nc fn env, modify154611_dup_iff f nc fn⟩

-- Claim C7.

/-- C7 counterexample: the first patch on demoFile carries a body with two
def lines; both sequential calls complete the success path, yet the second
call chooses index 4 — the line of b, the last def line of the inserted
block — as its insertion point, and that line is not the definition line of
the method a inserted by the first call, which sits at index 3. -/
theorem C7_counterexample :
    (modify_self_162647 demoFile bodyC7 (chars "a") envUsual).result
      = .success ∧
    (modify_self_162647
        (readLines (modify_self_162647 demoFile bodyC7 (chars "a") envUsual).file)
        (chars "def c(self): pass") (chars "c") envUsual).result = .success ∧
    findFirstIdx isClassAutobotLine
        (readLines (modify_self_162647 demoFile bodyC7 (chars "a") envUsual).file)
      = some 0 ∧
    lastFunctionIndex
        (readLines (modify_self_162647 demoFile bodyC7 (chars "a") envUsual).file) 0
      = 4 ∧
    isDefLineFor (chars "a")
        (lineAt (readLines (modify_self_162647 demoFile bodyC7 (chars "a") envUsual).file) 4)
      = false ∧
    isDefLineFor (chars "a")
        (lineAt (readLines (modify_self_162647 demoFile bodyC7 (chars "a") envUsual).file) 3)
      = true := by
  decide

/-- C7 amended: for two sequential calls of variant 162647 on a well-formed
file whose first call completes the success path, provided no body line
after the first strips to a def line, the second call finds the same class
index, and its chosen insertion point is the line of the method inserted by
the first call: the new scan result is the old insertion index plus two, and
the line found there is the formatted first body line. -/
theorem C7_amended_thm (f : PyFile) (nc fn : Line) (env1 : Env162647)
    (hwf : f.all wfLine = true)
    (hs : (modify_self_162647 f nc fn env1).result = .success)
    (hnn : ∀ l ∈ (pySplitNl (pyStrip nc)).tail, isDefStart l = false) :
    ∃ c, findFirstIdx isClassAutobotLine f = some c ∧
      findFirstIdx isClassAutobotLine
        (readLines (modify_self_162647 f nc fn env1).file) = some c ∧
      lastFunctionIndex (readLines (modify_self_162647 f nc fn env1).file) c
        = lastFunctionIndex f c + 2 ∧
      lineAt (readLines (modify_self_162647 f nc fn env1).file)
          (lastFunctionIndex f c + 2)
        = chars "    " ++ pyLStrip ((pySplitNl (pyStrip nc)).headD []) ++ ['\n'] := by
  obtain ⟨_, _, _, _, _, hdef1, c, hc, hf⟩ :=
    modify162647_success_cases f nc fn env1 hs
  have hwf' : ∀ l ∈ f, wfLine l = true := by
    intro l hl
    exact List.all_eq_true.mp hwf l hl
  have hL1 : readLines (modify_self_162647 f nc fn env1).file =
      linesAfterPatch f nc (lastFunctionIndex f c + 1) := by
    rw [hf]
    exact readLines_success_file f nc _ hwf'
  obtain ⟨hlfi, hline⟩ := lap_lastFunctionIndex f nc c hc hdef1 hnn
  refine ⟨c, hc, ?_, ?_, ?_⟩
  · rw [hL1]
    exact lap_class_idx f nc c hc
  · rw [hL1]
    exact hlfi
  · rw [hL1]
    exact hline

/-- C7 witness: instantiating the amended theorem on a successful single
line patch on demoFile. -/
theorem C7_witness :
    ∃ c, findFirstIdx isClassAutobotLine demoFile = some c ∧
      findFirstIdx isClassAutobotLine
        (readLines (modify_self_162647 demoFile (chars "def greet(self): pass")
          (chars "greet") envUsual).file) = some c ∧
      lastFunctionIndex
          (readLines (modify_self_162647 demoFile (chars "def greet(self): pass")
            (chars "greet") envUsual).file) c
        = lastFunctionIndex demoFile c + 2 ∧
      lineAt (readLines (modify_self_162647 demoFile (chars "def greet(self): pass")
            (chars "greet") envUsual).file)
          (lastFunctionIndex demoFile c + 2)
        = chars "    " ++
            pyLStrip ((pySplitNl (pyStrip (chars "def greet(self): pass"))).headD [])
            ++ ['\n'] :=
  C7_amended_thm demoFile (chars "def greet(self): pass") (chars "greet")
    envUsual (by decide) (by decide) (by decide)

-- Claim C8.

/-- C8 counterexample: with a body defining greet with a space before the
parenthesis, the first call on demoFile completes the success path, and the
second call with the identical request does not take the duplicate
rejection: it inserts the method a second time, completes the success path
again, and changes the file once more, so the claim that a repeated request
necessarily hits the duplicate-symbol rejection is false. -/
theorem C8_counterexample :
    (modify_self_162647 demoFile bodyC8 (chars "greet") envUsual).result
      = .success ∧
    (modify_self_162647
        (readLines (modify_self_162647 demoFile bodyC8 (chars "greet") envUsual).file)
        bodyC8 (chars "greet") envUsual).result = .success ∧
    (modify_self_162647
        (readLines (modify_self_162647 demoFile bodyC8 (chars "greet") envUsual).file)
        bodyC8 (chars "greet") envUsual).result ≠ .dupExists ∧
    (modify_self_162647
        (readLines (modify_self_162647 demoFile bodyC8 (chars "greet") envUsual).file)
        bodyC8 (chars "greet") envUsual).file
      ≠ (modify_self_162647 demoFile bodyC8 (chars "greet") envUsual).file := by
  decide

/-- C8 amended: after a successful first call on a well-formed file, the
second identical call takes the duplicate rejection and leaves the file
exactly as the first call wrote it, provided the first body line itself
contains the duplicate pattern — the normal case in which the body defines
the requested name in the exact textual form def name parenthesis. -/
theorem C8_amended_thm (f : PyFile) (nc fn : Line) (env1 env2 : Env162647)
    (hwf : f.all wfLine = true)
    (hs : (modify_self_162647 f nc fn env1).result = .success)
    (hb : containsSub ((pySplitNl (pyStrip nc)).headD []) (defPat fn) = true) :
    (modify_self_162647 (readLines (modify_self_162647 f nc fn env1).file)
        nc fn env2).result = .dupExists ∧
    (modify_self_162647 (readLines (modify_self_162647 f nc fn env1).file)
        nc fn env2).file = (modify_self_162647 f nc fn env1).file := by
  obtain ⟨_, _, _, _, _, _, c, hc, hf⟩ :=
    modify162647_success_cases f nc fn env1 hs
  have hwf' : ∀ l ∈ f, wfLine l = true := by
    intro l hl
    exact List.all_eq_true.mp hwf l hl
  have hL1 : readLines (modify_self_162647 f nc fn env1).file =
      linesAfterPatch f nc (lastFunctionIndex f c + 1) := by
    rw [hf]
    exact readLines_success_file f nc _ hwf'
  cases hsp : pySplitNl (pyStrip nc) with
  | nil => exact absurd hsp (pySplitNl_ne_nil _)
  | cons raw1 restL =>
    rw [hsp] at hb
    have hb1 : containsSub raw1 (defPat fn) = true := by simpa using hb
    have hmemF : chars "    " ++ pyLStrip raw1 ∈ formatBody162647 nc := by
      unfold formatBody162647
      rw [hsp]
      exact List.mem_map.mpr ⟨raw1, List.mem_cons_self raw1 restL, rfl⟩
    have hmemB : (chars "    " ++ pyLStrip raw1) ++ ['\n'] ∈
        (formatBody162647 nc).map (fun l => l ++ ['\n']) :=
      List.mem_map.mpr ⟨chars "    " ++ pyLStrip raw1, hmemF, rfl⟩
    have hmemL : (chars "    " ++ pyLStrip raw1) ++ ['\n'] ∈
        linesAfterPatch f nc (lastFunctionIndex f c + 1) :=
      mem_lap_of_mem_block f nc _ _ hmemB
    have hcont : containsSub (chars "    " ++ pyLStrip raw1 ++ ['\n'])
        (defPat fn) = true :=
      containsSub_fmt_line raw1 (defPat fn) (defPat_ne_nil fn)
        (defPat_head fn) hb1
    have hdup2 : (readLines (modify_self_162647 f nc fn env1).file).any
        (fun line => containsSub line (defPat fn)) = true := by
      rw [hL1]
      exact List.any_eq_true.mpr ⟨_, hmemL, hcont⟩
    rw [modify162647_dup _ nc fn env2 hdup2]
    refine ⟨rfl, ?_⟩
    exact flatten_readLines _

/-- C8 witness: instantiating the amended theorem on a successful patch on
demoFile whose body contains the duplicate pattern. -/
theorem C8_witness :
    (modify_self_162647
        (readLines (modify_self_162647 demoFile (chars "def greet(self): pass")
          (chars "greet") envUsual).file)
        (chars "def greet(self): pass") (chars "greet") envUsual).result
      = .dupExists ∧
    (modify_self_162647
        (readLines (modify_self_162647 demoFile (chars "def greet(self): pass")
          (chars "greet") envUsual).file)
        (chars "def greet(self): pass") (chars "greet") envUsual).file
      = (modify_self_162647 demoFile (chars "def greet(self): pass")
          (chars "greet") envUsual).file :=
  C8_amended_thm demoFile (chars "def greet(self): pass") (chars "greet")
    envUsual envUsual (by decide) (by decide) (by decide)
